import Mathlib

/-!
Verification of the jess-doit-archive-engine orchestration core.

Shallow embedding of `src/jdae/start_jdae.py` (class `JDAE`) and
`src/jdae/src/configmanager.py` (class `ConfigManager`).

The archive history (a Python dict from item-id strings to record dicts) is
modelled as an association list with Python-dict insert/lookup semantics.
External effects are made explicit parameters: the wall clock is a `now`
string, the outcome of `json.dump` to disk is a boolean, the yt_dlp
enumeration result is an `EnumResult` value and per-item transfer success is
an oracle `Entry → Bool`.  Environment and parsed config-file section are
partial maps `String → Option String`; `none` returned by a getter models a
`KeyError` escaping it.
-/

namespace JDAE

/-- One archive-history record, exactly the dict value built by
`JDAE.add_to_history` (timestamp is the `datetime.now().isoformat()` string,
passed in explicitly). -/
structure Record where
  title : String
  url : String
  uploader : String
  timestamp : String
  duration : Int
  filesize : Int
  deriving DecidableEq

/-- A media item info dict as yt_dlp hands it to the orchestrator, restricted
to the keys the orchestrator reads; a missing key is `none`. -/
structure Entry where
  id : Option String := none
  url : Option String := none
  title : Option String := none
  uploader : Option String := none
  duration : Option Int := none
  filesize : Option Int := none
  deriving DecidableEq

/-- The in-memory `self.archive_history` dict: association list with unique
keys in insertion order. -/
abbrev Ledger := List (String × Record)

/-- Python dict membership test (`item_id in self.archive_history`). -/
def dictMem (l : Ledger) (k : String) : Bool :=
  match l with
  | [] => false
  | (k2, _) :: rest => k2 = k || dictMem rest k

/-- Python dict lookup (`self.archive_history[k]`), `none` if absent. -/
def dictLookup (l : Ledger) (k : String) : Option Record :=
  match l with
  | [] => none
  | (k2, v) :: rest => if k2 = k then some v else dictLookup rest k

/-- Python dict assignment `self.archive_history[item_id] = {...}`:
overwrite in place if the key exists, otherwise append. -/
def dictInsert (l : Ledger) (k : String) (v : Record) : Ledger :=
  match l with
  | [] => [(k, v)]
  | (k2, v2) :: rest => if k2 = k then (k, v) :: rest else (k2, v2) :: dictInsert rest k v

/-- `JDAE.is_archived`: `return item_id in self.archive_history`. -/
def is_archived (h : Ledger) (item_id : String) : Bool :=
  dictMem h item_id

/-- The record dict literal built inside `JDAE.add_to_history` from the info
dict, with its `.get` defaults. -/
def mkRecord (url : String) (info : Entry) (now : String) : Record :=
  { title := info.title.getD "Unknown"
    url := url
    uploader := info.uploader.getD "Unknown"
    timestamp := now
    duration := info.duration.getD 0
    filesize := info.filesize.getD 0 }

/-- `JDAE.add_to_history(url, info)`: key is `info.get('id', url)`; the entry
is written into the in-memory dict and then `save_archive_history` runs.
`persistOk` is the outcome of that disk write (its exception is swallowed
inside `save_archive_history`, so the returned dict does not depend on it). -/
def add_to_history (h : Ledger) (url : String) (info : Entry) (now : String)
    (persistOk : Bool) : Ledger × Bool :=
  (dictInsert h (info.id.getD url) (mkRecord url info now), persistOk)

/-- `JDAE.save_archive_history` serializes the whole dict with
`json.dump(..., indent=2, sort_keys=True)`: the persisted artifact is the
entry list sorted by key. -/
def save_archive_history (h : Ledger) : List (String × Record) :=
  List.insertionSort (fun a b => a.1 <= b.1) h

/-- `JDAE.load_archive_history`: a readable valid file (`some entries`)
becomes the dict with those entries; a missing file or any read/parse
failure (`none`) yields the empty dict with a warning. -/
def load_archive_history (file : Option (List (String × Record))) : Ledger :=
  file.getD []

/-- The dedup key used by `download_from_url` for a playlist entry:
`entry.get('id', '')`. -/
def playlistKey (e : Entry) : String :=
  e.id.getD ""

/-- The playlist partition loop of `JDAE.download_from_url`: a falsy entry
(`None`) or an entry whose `entry.get('id', '')` key is archived increments
`skipped_count`; any other entry is appended to `new_items`. -/
def partitionEntries (h : Ledger) : List (Option Entry) → List Entry × Nat
  | [] => ([], 0)
  | oe :: rest =>
    let r := partitionEntries h rest
    match oe with
    | some e => if is_archived h (playlistKey e) then (r.1, r.2 + 1) else (e :: r.1, r.2)
    | none => (r.1, r.2 + 1)

/-- The dispatch loop of `JDAE.download_from_url` over `new_items`: for each
entry, `ytdl.download([entry['url']])` then `add_to_history(entry['url'],
entry)`, with any exception caught and the loop continuing.  A missing
`'url'` key raises `KeyError` before the transfer; `ok e` is the transfer
outcome.  Returns the final ledger and the list of entries the loop
processed. -/
def dispatchNewItems (h : Ledger) (ok : Entry → Bool) (now : String) :
    List Entry → Ledger × List Entry
  | [] => (h, [])
  | e :: rest =>
    let h2 :=
      match e.url with
      | some u => if ok e then (add_to_history h u e now true).1 else h
      | none => h
    let r := dispatchNewItems h2 ok now rest
    (r.1, e :: r.2)

/-- Outcome of `ytdl.extract_info(url, download=False)` as
`JDAE.download_from_url` distinguishes it: an exception, `None`, a playlist
(an `'entries'` key) or a single track info dict. -/
inductive EnumResult
  | fail
  | noInfo
  | single (info : Entry)
  | playlist (entries : List (Option Entry))
  deriving DecidableEq

/-- `JDAE.download_from_url` on one url: enumeration failure is caught and
leaves the ledger unchanged; a playlist is partitioned against the ledger
and its new items dispatched; a single track is keyed by
`info.get('id', url)`, skipped when archived, else downloaded and recorded
(the outer `except` catches a failed transfer). -/
def download_from_url (h : Ledger) (enum : EnumResult) (ok : Entry → Bool)
    (url now : String) : Ledger :=
  match enum with
  | .fail => h
  | .noInfo => h
  | .playlist entries => (dispatchNewItems h ok now (partitionEntries h entries).1).1
  | .single info =>
    if is_archived h (info.id.getD url) then h
    else if ok info then (add_to_history h url info now true).1 else h

/-- The per-pass `for url in url_list` loop of `JDAE.main`, calling
`download_from_url` on every url in order. -/
def run_pass (enumOf : String → EnumResult) (ok : Entry → Bool) (now : String) :
    Ledger → List String → Ledger
  | h, [] => h
  | h, u :: us => run_pass enumOf ok now (download_from_url h (enumOf u) ok u now) us

/-- The inter-pass sleep loop of `JDAE.main` with `fuel = wait_end - now`
slices left: `while time.time() < wait_end and not self.shutdown_requested:
time.sleep(1)`.  Time is discrete in 1-second slices; `sd s` is the value of
`self.shutdown_requested` observed at the check at time `s`.  Returns the
time at which the loop exits. -/
def sleepLoopAux (sd : Nat → Bool) : Nat → Nat → Nat
  | 0, now => now
  | fuel + 1, now => if sd now then now else sleepLoopAux sd fuel (now + 1)

/-- The sleep loop entered at time `now` with deadline `wait_end`. -/
def sleepLoop (wait_end : Nat) (sd : Nat → Bool) (now : Nat) : Nat :=
  sleepLoopAux sd (wait_end - now) now

/-- One yt_dlp postprocessor dict as `JDAE.main` writes it. -/
inductive Postprocessor
  | ffmpegExtractAudio (preferredcodec : String) (preferredquality : String)
  | ffmpegMetadata (add_metadata : Bool)
  | embedThumbnail (already_have_thumbnail : Bool)
  | execCmd (exec_cmd : String) (whenKey : String)
  deriving DecidableEq

/-- The `Exec` postprocessor `\x7b"key": "Exec", "exec_cmd": "chmod 666 ..",
"when": "after_move"\x7d` present in both branches of `JDAE.main`. -/
def permissionNormalization : Postprocessor :=
  .execCmd "chmod 666 \x7b\x7d" "after_move"

/-- The `ytdl_opts["postprocessors"]` list built by `JDAE.main` as a function
of the embed-metadata setting. -/
def postprocessors (embed_metadata : Bool) : List Postprocessor :=
  if embed_metadata then
    [.ffmpegExtractAudio "mp3" "0",
     .ffmpegMetadata true,
     .embedThumbnail false,
     permissionNormalization]
  else
    [permissionNormalization]

/-- A snapshot of `os.environ`: `none` means the variable is unset. -/
abbrev Env := String → Option String

/-- The parsed `[SETTINGS]` section of `gen_config.ini`: `none` means the
option is absent (so indexing it raises `KeyError`). -/
abbrev Cfg := String → Option String

/-- `os.environ.get(name)` followed by Python truthiness (`if env_val:`):
yields the value only when the variable is set and non-empty. -/
def envOverride (env : Env) (name : String) : Option String :=
  match env name with
  | some v => if v = "" then none else some v
  | none => none

/-- The `val in ["True", "true"]` string-to-bool conversion used by
`get_skip_intro` and `get_listformats`. -/
def pyBool2 (val : String) : Bool :=
  (["True", "true"] : List String).contains val

/-- The `val in ["True", "true", "1", "yes"]` string-to-bool conversion used
by `get_hq_en` and `get_embed_metadata`. -/
def pyBool4 (val : String) : Bool :=
  (["True", "true", "1", "yes"] : List String).contains val

/-- `ConfigManager.get_skip_intro`: reads only
`self.parser["SETTINGS"]["skip_intro"]`; the environment is never consulted. -/
def get_skip_intro (_env : Env) (cfg : Cfg) : Option Bool :=
  (cfg "skip_intro").map pyBool2

/-- `ConfigManager.get_output_dir`: `OUTPUT_DIR` environment variable if set
and non-empty, else the config-file value. -/
def get_output_dir (env : Env) (cfg : Cfg) : Option String :=
  match envOverride env "OUTPUT_DIR" with
  | some v => some v
  | none => cfg "output_dir"

/-- Python `int()` on a string, as used by `get_sleep_interval_requests`. -/
def pyInt (s : String) : Option Int :=
  s.toInt?

/-- Python `float()` on a decimal literal string (optional sign, integer
part, optional fraction), as used by `get_archive_freq`. -/
def pyFloat (s : String) : Option ℚ :=
  let sign : ℚ := if s.startsWith "-" then -1 else 1
  let t := if s.startsWith "-" then s.drop 1 else s
  match t.split (fun c => c = '.') with
  | [w] => (w.toNat?).map (fun n => sign * n)
  | [w, f] =>
    match w.toNat?, f.toNat? with
    | some wn, some fn => some (sign * ((wn : ℚ) + (fn : ℚ) / (10 ^ f.length)))
    | _, _ => none
  | _ => none

/-- Python `int()` truncation toward zero of a float. -/
def pyTrunc (q : ℚ) : Int :=
  if 0 <= q then ⌊q⌋ else -⌊-q⌋

/-- `ConfigManager.get_archive_freq`:
`int(float(parser["SETTINGS"]["archive_frequency"]) * 3600)`; the
environment is never consulted. -/
def get_archive_freq (_env : Env) (cfg : Cfg) : Option Int :=
  (cfg "archive_frequency").bind (fun s => (pyFloat s).map (fun q => pyTrunc (q * 3600)))

/-- `ConfigManager.get_oauth`: `SOUNDCLOUD_OAUTH` environment variable if set
and non-empty, else the config-file value. -/
def get_oauth (env : Env) (cfg : Cfg) : Option String :=
  match envOverride env "SOUNDCLOUD_OAUTH" with
  | some v => some v
  | none => cfg "oauth"

/-- `ConfigManager.get_hq_en`: value from `HIGH_QUALITY_ENABLE` environment
variable if set and non-empty, else from the config file; then the
four-element truthy conversion. -/
def get_hq_en (env : Env) (cfg : Cfg) : Option Bool :=
  match envOverride env "HIGH_QUALITY_ENABLE" with
  | some v => some (pyBool4 v)
  | none => (cfg "high_quality_enable").map pyBool4

/-- `ConfigManager.get_sleep_interval_requests`:
`int(parser["SETTINGS"]["rate_limit_sec"])`; the environment is never
consulted. -/
def get_sleep_interval_requests (_env : Env) (cfg : Cfg) : Option Int :=
  (cfg "rate_limit_sec").bind pyInt

/-- `ConfigManager.get_listformats`: reads only the config-file value; the
environment is never consulted. -/
def get_listformats (_env : Env) (cfg : Cfg) : Option Bool :=
  (cfg "listformats").map pyBool2

/-- `ConfigManager.get_embed_metadata`: value from `EMBED_METADATA`
environment variable if set and non-empty, else
`parser["SETTINGS"].get("embed_metadata", "True")`; then the four-element
truthy conversion. -/
def get_embed_metadata (env : Env) (cfg : Cfg) : Bool :=
  pyBool4 ((envOverride env "EMBED_METADATA").getD ((cfg "embed_metadata").getD "True"))

/-- Python `str.rstrip()` whitespace set. -/
def pyIsSpace (c : Char) : Bool :=
  c = ' ' || c = '\t' || c = '\n' || c = '\r' || c = '\x0b' || c = '\x0c'

/-- Python `line.rstrip()`: drop trailing whitespace. -/
def pyRstrip (s : String) : String :=
  String.mk ((s.data.reverse.dropWhile pyIsSpace).reverse)

/-- `ConfigManager.get_url_list`: rstrip every line of `url_list.ini`, then
drop the first line whenever the list is non-empty. -/
def get_url_list (lines : List String) : List String :=
  let url_list := lines.map pyRstrip
  if url_list.length > 0 then url_list.drop 1 else url_list

/-! Concrete environments, config sections and items used as test inputs. -/

/-- An environment in which every variable is set to `"true"`. -/
def envAllTrue : Env := fun _ => some "true"

/-- An environment with no variable set. -/
def envNone : Env := fun _ => none

/-- A config section whose only option is `skip_intro = False`. -/
def cfgSkipFalse : Cfg := fun k => if k = "skip_intro" then some "False" else none

/-- An environment whose only variable is `HIGH_QUALITY_ENABLE=TRUE`
(upper-case value). -/
def envHqUpper : Env := fun k => if k = "HIGH_QUALITY_ENABLE" then some "TRUE" else none

/-- An empty config section. -/
def cfgEmpty : Cfg := fun _ => none

/-- An environment setting the four recognized override variables, all to
`"yes"`. -/
def envW4 : Env := fun k =>
  if k = "OUTPUT_DIR" ∨ k = "SOUNDCLOUD_OAUTH" ∨ k = "HIGH_QUALITY_ENABLE" ∨
      k = "EMBED_METADATA" then
    some "yes"
  else none

/-- A fully populated config section. -/
def cfgW : Cfg := fun k =>
  if k = "output_dir" then some "/srv/archive"
  else if k = "oauth" then some "OAuth abc"
  else if k = "high_quality_enable" then some "1"
  else if k = "skip_intro" then some "true"
  else if k = "listformats" then some "False"
  else if k = "rate_limit_sec" then some "7"
  else if k = "archive_frequency" then some "1.5"
  else if k = "embed_metadata" then some "0"
  else none

/-- A sample archive record. -/
def r0 : Record :=
  { title := "t", url := "u", uploader := "up", timestamp := "ts",
    duration := 0, filesize := 0 }

/-- An entry with no stable identifier, only a source url. -/
def e0 : Entry := { url := some "u" }

/-- A ledger whose only key is the url `"u"`. -/
def h0 : Ledger := [("u", r0)]

/-- An entry with id `"a"`. -/
def eA : Entry := { id := some "a", url := some "ua" }

/-- An entry with id `"b"`. -/
def eB : Entry := { id := some "b", url := some "ub" }

/-- A ledger in which `eA`'s key is already archived. -/
def hA : Ledger := [("a", r0)]

/-- A transfer oracle that succeeds only on `eB`. -/
def okB : Entry → Bool := fun e => e.id == some "b"

/-- A two-entry ledger whose insertion order is not key-sorted. -/
def hUnsorted : Ledger := [("b", r0), ("a", r0)]

instance : IsTotal (String × Record) (fun a b => a.1 ≤ b.1) :=
  ⟨fun a b => le_total a.1 b.1⟩

instance : IsTrans (String × Record) (fun a b => a.1 ≤ b.1) :=
  ⟨fun _ _ _ h1 h2 => le_trans h1 h2⟩

/-! Helper lemmas about the truthy-string conversions. -/

theorem pyBool2_eq_true_iff (v : String) :
    pyBool2 v = true ↔ v = "True" ∨ v = "true" := by
  simp [pyBool2, List.contains_eq_any_beq, List.any_cons, List.any_nil, beq_iff_eq]

theorem pyBool4_eq_true_iff (v : String) :
    pyBool4 v = true ↔ v = "True" ∨ v = "true" ∨ v = "1" ∨ v = "yes" := by
  simp [pyBool4, List.contains_eq_any_beq, List.any_cons, List.any_nil, beq_iff_eq]

/-! Helper lemmas about the dict model. -/

theorem dictMem_insert_self (l : Ledger) (k : String) (v : Record) :
    dictMem (dictInsert l k v) k = true := by
  induction l with
  | nil => simp [dictInsert, dictMem]
  | cons p rest ih =>
    by_cases hk : p.1 = k
    · simp [dictInsert, hk, dictMem]
    · simp [dictInsert, hk, dictMem, ih]

theorem dictMem_insert_mono (l : Ledger) (k k2 : String) (v : Record)
    (hm : dictMem l k = true) : dictMem (dictInsert l k2 v) k = true := by
  induction l with
  | nil => simp [dictMem] at hm
  | cons p rest ih =>
    simp only [dictMem, Bool.or_eq_true, decide_eq_true_eq] at hm
    by_cases hk : p.1 = k2
    · rcases hm with hm | hm
      · have h2 : k2 = k := by rw [← hk]; exact hm
        simp [dictInsert, hk, dictMem, h2]
      · simp [dictInsert, hk, dictMem, hm]
    · rcases hm with hm | hm
      · have hkk : ¬k = k2 := by rw [← hm]; exact hk
        simp [dictInsert, hk, hkk, dictMem, hm]
      · simp [dictInsert, hk, dictMem, ih hm]

/-- Claim C1: after `add_to_history` returns, `is_archived` on the key it
recorded is true in the same in-memory ledger, whatever the outcome of the
disk persist was, and the in-memory dict is identical for a failed and a
successful persist (no rollback). -/
theorem c1_record_then_is_archived (h : Ledger) (url : String) (info : Entry)
    (now : String) (persistOk : Bool) :
    is_archived (add_to_history h url info now persistOk).1 (info.id.getD url) = true ∧
    (add_to_history h url info now persistOk).1 = (add_to_history h url info now true).1 := by
  exact ⟨by simpa [is_archived, add_to_history] using dictMem_insert_self h _ _, rfl⟩

/-- Claim C8: the postprocessor pipeline handed to yt_dlp is a pure function
of the embed-metadata flag: enabled yields audio extraction, metadata
injection, thumbnail embedding, then permission normalization, in that
order; disabled yields only permission normalization; in both cases the
permission-normalization step is last. -/
theorem c8_postprocessing_pipeline (b : Bool) :
    postprocessors true =
      [Postprocessor.ffmpegExtractAudio "mp3" "0",
       Postprocessor.ffmpegMetadata true,
       Postprocessor.embedThumbnail false,
       permissionNormalization] ∧
    postprocessors false = [permissionNormalization] ∧
    (postprocessors b).getLast? = some permissionNormalization := by
  refine ⟨rfl, rfl, ?_⟩
  cases b <;> rfl

theorem sleepLoopAux_le_of_shutdown (sd : Nat → Bool) (t : Nat)
    (hsd : ∀ s, t ≤ s → sd s = true) :
    ∀ fuel now, sleepLoopAux sd fuel now ≤ max now t := by
  intro fuel
  induction fuel with
  | zero => intro now; simp [sleepLoopAux]
  | succ n ih =>
    intro now
    by_cases hnow : sd now = true
    · simp [sleepLoopAux, hnow]
    · have hlt : now < t := by
        by_contra hge
        push_neg at hge
        exact hnow (hsd now hge)
      calc sleepLoopAux sd (n + 1) now = sleepLoopAux sd n (now + 1) := by
            simp [sleepLoopAux, hnow]
        _ ≤ max (now + 1) t := ih (now + 1)
        _ = t := max_eq_right hlt
        _ ≤ max now t := le_max_right now t

/-- Claim C9: the inter-pass wait is a loop of one-second slices, each
checking the shutdown flag; if shutdown is requested from time `t` onward,
the loop exits by time `max now t` — within one slice of the request — for
every deadline `wait_end`, not at the end of the full interval. -/
theorem c9_sleep_exits_within_slice (wait_end t now : Nat) :
    sleepLoop wait_end (fun s => decide (t ≤ s)) now ≤ max now t :=
  sleepLoopAux_le_of_shutdown _ t (fun s hs => by simpa using hs) _ now

/-- Claim C10: `get_url_list` drops the first line unconditionally for any
non-empty file, whatever that line's content is, keeps every other stripped
line (blank or not), and returns the empty list for an empty file. -/
theorem c10_url_list_drops_first_line (l : String) (ls : List String) :
    get_url_list [] = [] ∧ get_url_list (l :: ls) = ls.map pyRstrip := by
  exact ⟨rfl, by simp [get_url_list]⟩

/-- Claim C3 (amended): environment-over-config precedence holds for the
output directory, the auth token, the high-quality flag and the
embed-metadata flag, with an absent or empty environment value falling back
to the config value; the skip-intro flag, the list-formats flag, the request
pacing delay and the archive interval are resolved from the config file
only, ignoring the environment entirely (and the URL list is read from its
own file). -/
theorem c3_config_precedence (env env2 : Env) (cfg : Cfg) (v : String) (hv : v ≠ "") :
    (env "OUTPUT_DIR" = some v → get_output_dir env cfg = some v) ∧
    (env "OUTPUT_DIR" = none → get_output_dir env cfg = cfg "output_dir") ∧
    (env "OUTPUT_DIR" = some "" → get_output_dir env cfg = cfg "output_dir") ∧
    (env "SOUNDCLOUD_OAUTH" = some v → get_oauth env cfg = some v) ∧
    (env "SOUNDCLOUD_OAUTH" = none → get_oauth env cfg = cfg "oauth") ∧
    (env "HIGH_QUALITY_ENABLE" = some v → get_hq_en env cfg = some (pyBool4 v)) ∧
    (env "HIGH_QUALITY_ENABLE" = none →
      get_hq_en env cfg = (cfg "high_quality_enable").map pyBool4) ∧
    (env "EMBED_METADATA" = some v → get_embed_metadata env cfg = pyBool4 v) ∧
    (env "EMBED_METADATA" = none →
      get_embed_metadata env cfg = pyBool4 ((cfg "embed_metadata").getD "True")) ∧
    get_skip_intro env cfg = get_skip_intro env2 cfg ∧
    get_listformats env cfg = get_listformats env2 cfg ∧
    get_sleep_interval_requests env cfg = get_sleep_interval_requests env2 cfg ∧
    get_archive_freq env cfg = get_archive_freq env2 cfg := by
  refine ⟨?_, ?_, ?_, ?_, ?_, ?_, ?_, ?_, ?_, rfl, rfl, rfl, rfl⟩ <;> intro hset <;>
    simp [get_output_dir, get_oauth, get_hq_en, get_embed_metadata, envOverride, hset, hv]

/-- Claim C3 is false as stated: with every environment variable set to the
truthy value `"true"` while the config file has `skip_intro = False`, the
skip-intro field still resolves to the config value `false`, not to the
environment value. -/
theorem c3_counterexample :
    envAllTrue "SKIP_INTRO" = some "true" ∧
    get_skip_intro envAllTrue cfgSkipFalse = some false := by
  exact ⟨rfl, by decide⟩

theorem c3_witness :
    get_output_dir envW4 cfgW = some "yes" ∧
    get_oauth envW4 cfgW = some "yes" ∧
    get_hq_en envW4 cfgW = some true ∧
    get_embed_metadata envW4 cfgW = true ∧
    get_skip_intro envW4 cfgW = get_skip_intro envNone cfgW ∧
    get_listformats envW4 cfgW = get_listformats envNone cfgW ∧
    get_sleep_interval_requests envW4 cfgW = get_sleep_interval_requests envNone cfgW ∧
    get_archive_freq envW4 cfgW = get_archive_freq envNone cfgW := by
  obtain ⟨h1, h2, h3, h4, h5, h6, h7, h8, h9, h10, h11, h12, h13⟩ :=
    c3_config_precedence envW4 envNone cfgW "yes" (by decide)
  refine ⟨h1 (by decide), h4 (by decide), ?_, ?_, h10, h11, h12, h13⟩
  · rw [h6 (by decide)]; decide
  · rw [h8 (by decide)]; decide

/-- Claim C6 (amended): for the high-quality and embed-metadata fields the
truthy set is exactly "True", "true", "1", "yes", compared case-sensitively
on the environment path as well as on the config path; for the skip-intro
and list-formats fields (config-file only) the truthy set is exactly "True",
"true".  Any other value is falsy. -/
theorem c6_truthy_sets (env : Env) (cfg : Cfg) (v : String) (hv : v ≠ "") :
    (env "HIGH_QUALITY_ENABLE" = some v →
      (get_hq_en env cfg = some true ↔ v = "True" ∨ v = "true" ∨ v = "1" ∨ v = "yes")) ∧
    (env "HIGH_QUALITY_ENABLE" = none → cfg "high_quality_enable" = some v →
      (get_hq_en env cfg = some true ↔ v = "True" ∨ v = "true" ∨ v = "1" ∨ v = "yes")) ∧
    (env "EMBED_METADATA" = some v →
      (get_embed_metadata env cfg = true ↔ v = "True" ∨ v = "true" ∨ v = "1" ∨ v = "yes")) ∧
    (env "EMBED_METADATA" = none → cfg "embed_metadata" = some v →
      (get_embed_metadata env cfg = true ↔ v = "True" ∨ v = "true" ∨ v = "1" ∨ v = "yes")) ∧
    (cfg "skip_intro" = some v →
      (get_skip_intro env cfg = some true ↔ v = "True" ∨ v = "true")) ∧
    (cfg "listformats" = some v →
      (get_listformats env cfg = some true ↔ v = "True" ∨ v = "true")) := by
  refine ⟨?_, ?_, ?_, ?_, ?_, ?_⟩
  · intro hset
    simp [get_hq_en, envOverride, hset, hv, pyBool4_eq_true_iff]
  · intro hset hcfg
    simp [get_hq_en, envOverride, hset, hcfg, pyBool4_eq_true_iff]
  · intro hset
    simp [get_embed_metadata, envOverride, hset, hv, pyBool4_eq_true_iff]
  · intro hset hcfg
    simp [get_embed_metadata, envOverride, hset, hcfg, pyBool4_eq_true_iff]
  · intro hcfg
    simp [get_skip_intro, hcfg, pyBool2_eq_true_iff]
  · intro hcfg
    simp [get_listformats, hcfg, pyBool2_eq_true_iff]

/-- Claim C6 is false as stated: the environment value `"TRUE"` lower-cases
to the claimed truthy value `"true"`, yet the high-quality field resolves to
false — the environment path is not case-insensitive. -/
theorem c6_counterexample :
    envHqUpper "HIGH_QUALITY_ENABLE" = some "TRUE" ∧
    String.mk ("TRUE".data.map Char.toLower) = "true" ∧
    get_hq_en envHqUpper cfgEmpty = some false := by
  refine ⟨by decide, by decide, by decide⟩

theorem c6_witness :
    get_hq_en envW4 cfgW = some true ∧ get_skip_intro envW4 cfgW = some true := by
  obtain ⟨h1, _, _, _, _, _⟩ := c6_truthy_sets envW4 cfgW "yes" (by decide)
  obtain ⟨_, _, _, _, h5, _⟩ := c6_truthy_sets envW4 cfgW "true" (by decide)
  exact ⟨(h1 (by decide)).mpr (by decide), (h5 (by decide)).mpr (by decide)⟩

/-! Lemmas about the partition and dispatch loops of `download_from_url`. -/

theorem dictLookup_insert_self (l : Ledger) (k : String) (v : Record) :
    dictLookup (dictInsert l k v) k = some v := by
  induction l with
  | nil => simp [dictInsert, dictLookup]
  | cons p rest ih =>
    by_cases hk : p.1 = k
    · simp [dictInsert, hk, dictLookup]
    · simp [dictInsert, hk, dictLookup, ih]

theorem dictMem_iff_mem_keys (l : Ledger) (k : String) :
    dictMem l k = true ↔ k ∈ l.map Prod.fst := by
  induction l with
  | nil => simp [dictMem]
  | cons p rest ih =>
    simp only [dictMem, Bool.or_eq_true, decide_eq_true_eq, ih, List.map_cons,
      List.mem_cons]
    constructor
    · rintro (h1 | h1)
      · exact Or.inl h1.symm
      · exact Or.inr h1
    · rintro (h1 | h1)
      · exact Or.inl h1.symm
      · exact Or.inr h1

theorem dictMem_eq_false_iff (l : Ledger) (k : String) :
    dictMem l k = false ↔ k ∉ l.map Prod.fst := by
  rw [← dictMem_iff_mem_keys]
  cases hb : dictMem l k <;> simp [hb]

theorem partitionEntries_cons_some (h : Ledger) (e : Entry) (rest : List (Option Entry)) :
    partitionEntries h (some e :: rest)
      = if is_archived h (playlistKey e)
          then ((partitionEntries h rest).1, (partitionEntries h rest).2 + 1)
          else (e :: (partitionEntries h rest).1, (partitionEntries h rest).2) := by
  cases hb : is_archived h (playlistKey e) <;> simp [partitionEntries, hb]

theorem partitionEntries_eq_filter (h : Ledger) :
    ∀ entries : List (Option Entry), (∀ oe ∈ entries, oe.isSome) →
      partitionEntries h entries =
        ((entries.filterMap id).filter (fun e => !(is_archived h (playlistKey e))),
         ((entries.filterMap id).filter (fun e => is_archived h (playlistKey e))).length) := by
  intro entries
  induction entries with
  | nil => intro _; rfl
  | cons oe rest ih =>
    intro hall
    have hrest := ih (fun x hx => hall x (List.mem_cons_of_mem _ hx))
    obtain ⟨e, he⟩ := Option.isSome_iff_exists.mp (hall oe (List.mem_cons_self _ _))
    subst he
    rw [partitionEntries_cons_some, hrest]
    cases hb : is_archived h (playlistKey e) <;>
      simp [hb, List.filter_cons, List.filterMap_cons]

theorem map_playlistKey_filter (p : String → Bool) (es : List Entry) :
    (es.filter (fun e => p (playlistKey e))).map playlistKey
      = (es.map playlistKey).filter p := by
  induction es with
  | nil => rfl
  | cons e es ih => cases hp : p (playlistKey e) <;> simp [List.filter_cons, hp, ih]

theorem dispatch_attempts_all (ok : Entry → Bool) (now : String) :
    ∀ (items : List Entry) (h : Ledger), (dispatchNewItems h ok now items).2 = items := by
  intro items
  induction items with
  | nil => intro h; rfl
  | cons e rest ih => intro h; simp [dispatchNewItems, ih]

theorem dispatch_mono (ok : Entry → Bool) (now : String) :
    ∀ (items : List Entry) (h : Ledger) (k : String), dictMem h k = true →
      dictMem (dispatchNewItems h ok now items).1 k = true := by
  intro items
  induction items with
  | nil => intro h k hk; simpa [dispatchNewItems] using hk
  | cons e rest ih =>
    intro h k hk
    cases hu : e.url with
    | none => simpa [dispatchNewItems, hu] using ih _ _ hk
    | some u =>
      cases hok : ok e
      · simpa [dispatchNewItems, hu, hok] using ih _ _ hk
      · simpa [dispatchNewItems, hu, hok, add_to_history] using
          ih _ _ (dictMem_insert_mono h k _ _ hk)

theorem download_from_url_mono (h : Ledger) (enum : EnumResult) (ok : Entry → Bool)
    (url now k : String) (hk : dictMem h k = true) :
    dictMem (download_from_url h enum ok url now) k = true := by
  cases enum with
  | fail => exact hk
  | noInfo => exact hk
  | playlist entries => exact dispatch_mono ok now _ h k hk
  | single info =>
    by_cases ha : is_archived h (info.id.getD url) = true
    · simpa [download_from_url, ha] using hk
    · cases hok : ok info
      · simpa [download_from_url, ha, hok] using hk
      · simpa [download_from_url, ha, hok, add_to_history] using
          dictMem_insert_mono h k _ _ hk

theorem run_pass_mono (enumOf : String → EnumResult) (ok : Entry → Bool) (now : String) :
    ∀ (urls : List String) (h : Ledger) (k : String), dictMem h k = true →
      dictMem (run_pass enumOf ok now h urls) k = true := by
  intro urls
  induction urls with
  | nil => intro h k hk; exact hk
  | cons u us ih =>
    intro h k hk
    exact ih _ k (download_from_url_mono h (enumOf u) ok u now k hk)

theorem run_pass_fail_url (enumOf : String → EnumResult) (ok : Entry → Bool)
    (now : String) (h : Ledger) (u : String) (us : List String)
    (hu : enumOf u = EnumResult.fail) :
    run_pass enumOf ok now h (u :: us) = run_pass enumOf ok now h us := by
  simp [run_pass, download_from_url, hu]

/-- Claim C2 (amended): when the enumerated list has no falsy (`None`)
entries and the entries' dedup keys are pairwise distinct, the dispatched
new-item list is exactly the candidates whose key is not in the ledger, its
key set is exactly the set difference of the candidate keys minus the ledger
keys, and the skipped count is exactly the size of the intersection of the
candidate keys with the ledger keys.  (With falsy entries the skipped count
also counts them; with repeated keys it counts occurrences.) -/
theorem c2_partition_sets (h : Ledger) (entries : List (Option Entry))
    (hsome : ∀ oe ∈ entries, oe.isSome)
    (hnd : ((entries.filterMap id).map playlistKey).Nodup) :
    (partitionEntries h entries).1
        = (entries.filterMap id).filter (fun e => !(is_archived h (playlistKey e))) ∧
    ((partitionEntries h entries).1.map playlistKey).toFinset
        = ((entries.filterMap id).map playlistKey).toFinset \ (h.map Prod.fst).toFinset ∧
    (partitionEntries h entries).2
        = (((entries.filterMap id).map playlistKey).toFinset ∩
            (h.map Prod.fst).toFinset).card := by
  have hpart := partitionEntries_eq_filter h entries hsome
  refine ⟨by rw [hpart], ?_, ?_⟩
  · rw [hpart]
    dsimp only
    rw [map_playlistKey_filter (fun k => !is_archived h k)]
    ext k
    simp [List.mem_filter, is_archived, dictMem_eq_false_iff]
  · rw [hpart]
    dsimp only
    have h1 : ((entries.filterMap id).filter
          (fun e => is_archived h (playlistKey e))).length
        = (((entries.filterMap id).map playlistKey).filter
            (fun k => is_archived h k)).length := by
      rw [← List.length_map ((entries.filterMap id).filter
            (fun e => is_archived h (playlistKey e))) playlistKey,
          map_playlistKey_filter (fun k => is_archived h k)]
    have h2 : (((entries.filterMap id).map playlistKey).filter
        (fun k => is_archived h k)).Nodup := hnd.filter _
    have h3 : (((entries.filterMap id).map playlistKey).filter
          (fun k => is_archived h k)).toFinset
        = ((entries.filterMap id).map playlistKey).toFinset ∩
            (h.map Prod.fst).toFinset := by
      ext k
      simp [List.mem_filter, is_archived, dictMem_iff_mem_keys]
    rw [h1, ← List.toFinset_card_of_nodup h2, h3]

/-- Claim C2 is false as stated: a falsy (`None`) enumerated entry is counted
as skipped although it contributes no identity key, so the skipped count (1)
differs from the size of the candidate-key/ledger-key intersection (0). -/
theorem c2_counterexample :
    (partitionEntries ([] : Ledger) [(none : Option Entry)]).2 = 1 ∧
    (([(none : Option Entry)].filterMap id).map playlistKey) = [] ∧
    ((([(none : Option Entry)].filterMap id).map playlistKey).toFinset ∩
        (([] : Ledger).map Prod.fst).toFinset).card = 0 := by
  refine ⟨rfl, rfl, rfl⟩

theorem c2_witness :
    (partitionEntries hA [some eA, some eB]).1
        = (([some eA, some eB] : List (Option Entry)).filterMap id).filter
            (fun e => !(is_archived hA (playlistKey e))) ∧
    ((partitionEntries hA [some eA, some eB]).1.map playlistKey).toFinset
        = ((([some eA, some eB] : List (Option Entry)).filterMap id).map
            playlistKey).toFinset \ (hA.map Prod.fst).toFinset ∧
    (partitionEntries hA [some eA, some eB]).2
        = (((([some eA, some eB] : List (Option Entry)).filterMap id).map
            playlistKey).toFinset ∩ (hA.map Prod.fst).toFinset).card := by
  exact c2_partition_sets hA [some eA, some eB] (by decide) (by decide)

/-- Claim C5: a failing item in the batch does not stop the loop — every new
item is processed, no ledger key is removed by the dispatch, a url whose
enumeration fails leaves the ledger unchanged while its sibling urls are
still processed, and no ledger key is removed over a whole pass. -/
theorem c5_partial_failure_isolation (h h2 : Ledger) (ok : Entry → Bool) (now : String)
    (items : List Entry) (e : Entry) (k k2 : String)
    (enumOf : String → EnumResult) (u : String) (us : List String)
    (_hmem : e ∈ items) (_hfail : ok e = false)
    (hk : dictMem h k = true) (hk2 : dictMem h2 k2 = true)
    (hu : enumOf u = EnumResult.fail) :
    (dispatchNewItems h ok now items).2 = items ∧
    dictMem (dispatchNewItems h ok now items).1 k = true ∧
    run_pass enumOf ok now h2 (u :: us) = run_pass enumOf ok now h2 us ∧
    dictMem (run_pass enumOf ok now h2 us) k2 = true := by
  exact ⟨dispatch_attempts_all ok now items h, dispatch_mono ok now items h k hk,
    run_pass_fail_url enumOf ok now h2 u us hu, run_pass_mono enumOf ok now us h2 k2 hk2⟩

theorem c5_witness :
    (dispatchNewItems hA okB "ts" [eA, eB]).2 = [eA, eB] ∧
    dictMem (dispatchNewItems hA okB "ts" [eA, eB]).1 "a" = true ∧
    run_pass (fun _ => EnumResult.fail) okB "ts" hA ["p1", "p2"]
        = run_pass (fun _ => EnumResult.fail) okB "ts" hA ["p2"] ∧
    dictMem (run_pass (fun _ => EnumResult.fail) okB "ts" hA ["p2"]) "a" = true := by
  exact c5_partial_failure_isolation hA hA okB "ts" [eA, eB] eA "a" "a"
    (fun _ => EnumResult.fail) "p1" ["p2"] (by decide) (by decide) (by decide)
    (by decide) rfl

/-- Claim C7 (amended): the history-record write and the single-track dedup
lookup key an item by its stable id, falling back to the source url when the
id is absent; the playlist dedup lookup also keys by the id but falls back
to the empty string, not to the url. -/
theorem c7_dedup_key (h : Ledger) (ok : Entry → Bool) (url now : String)
    (info e info2 : Entry) (i : String)
    (hi : info.id = none) (he : e.id = none) (hid : info2.id = some i) :
    dictLookup (add_to_history h url info now true).1 url
        = some (mkRecord url info now) ∧
    (is_archived h url = true →
      download_from_url h (EnumResult.single info) ok url now = h) ∧
    (partitionEntries h [some e]).1 = (if is_archived h "" = true then [] else [e]) ∧
    dictLookup (add_to_history h url info2 now true).1 i
        = some (mkRecord url info2 now) ∧
    (is_archived h i = true →
      download_from_url h (EnumResult.single info2) ok url now = h) ∧
    (partitionEntries h [some info2]).1
        = (if is_archived h i = true then [] else [info2]) := by
  refine ⟨?_, ?_, ?_, ?_, ?_, ?_⟩
  · simp [add_to_history, hi, dictLookup_insert_self]
  · intro ha; simp [download_from_url, hi, ha]
  · cases hb : is_archived h "" <;>
      simp [partitionEntries, playlistKey, he, hb]
  · simp [add_to_history, hid, dictLookup_insert_self]
  · intro ha; simp [download_from_url, hid, ha]
  · cases hb : is_archived h i <;>
      simp [partitionEntries, playlistKey, hid, hb]

/-- Claim C7 is false as stated: an id-less playlist entry whose source url
is already archived is still classified as new (the playlist lookup falls
back to the empty string, not to the url), so it would be re-downloaded. -/
theorem c7_counterexample :
    e0.id = none ∧ e0.url = some "u" ∧ is_archived h0 "u" = true ∧
    (partitionEntries h0 [some e0]).1 = [e0] ∧
    (partitionEntries h0 [some e0]).2 = 0 := by
  refine ⟨rfl, rfl, by decide, by decide, by decide⟩

theorem c7_witness :
    dictLookup (add_to_history hA "u" e0 "ts" true).1 "u"
        = some (mkRecord "u" e0 "ts") ∧
    (partitionEntries hA [some e0]).1 = [e0] ∧
    dictLookup (add_to_history hA "u" eA "ts" true).1 "a"
        = some (mkRecord "u" eA "ts") ∧
    download_from_url hA (EnumResult.single eA) okB "u" "ts" = hA := by
  obtain ⟨w1, w2, w3, w4, w5, w6⟩ := c7_dedup_key hA okB "u" "ts" e0 e0 eA "a" rfl rfl rfl
  refine ⟨w1, ?_, w4, w5 (by decide)⟩
  rw [w3]; decide

/-! Lemmas about persisting and reloading the archive history. -/

theorem dictLookup_some_mem (l : Ledger) (k : String) (v : Record)
    (hl : dictLookup l k = some v) : (k, v) ∈ l := by
  induction l with
  | nil => simp [dictLookup] at hl
  | cons p rest ih =>
    by_cases hk : p.1 = k
    · simp only [dictLookup, if_pos hk, Option.some_inj] at hl
      have hp : p = (k, v) := by
        cases p
        simp_all
      rw [← hp]
      exact List.mem_cons_self _ _
    · simp only [dictLookup, if_neg hk] at hl
      exact List.mem_cons_of_mem _ (ih hl)

theorem dictLookup_eq_some_of_mem_nodup (l : Ledger) (k : String) (v : Record)
    (hnd : (l.map Prod.fst).Nodup) (hm : (k, v) ∈ l) : dictLookup l k = some v := by
  induction l with
  | nil => simp at hm
  | cons p rest ih =>
    rcases List.mem_cons.mp hm with hm | hm
    · simp [dictLookup, ← hm]
    · have hnd2 : p.1 ∉ rest.map Prod.fst ∧ (rest.map Prod.fst).Nodup := by
        rw [List.map_cons, List.nodup_cons] at hnd
        exact hnd
      have hk : ¬p.1 = k := by
        intro hkk
        have hkm : k ∈ rest.map Prod.fst := by
          have := List.mem_map_of_mem Prod.fst hm
          simpa using this
        exact hnd2.1 (hkk ▸ hkm)
      simp only [dictLookup, if_neg hk]
      exact ih hnd2.2 hm

theorem dictLookup_eq_none_iff (l : Ledger) (k : String) :
    dictLookup l k = none ↔ k ∉ l.map Prod.fst := by
  induction l with
  | nil => simp [dictLookup]
  | cons p rest ih =>
    by_cases hk : p.1 = k
    · simp [dictLookup, hk]
    · simp only [dictLookup, if_neg hk, ih, List.map_cons, List.mem_cons]
      constructor
      · rintro hh (h1 | h1)
        · exact hk h1.symm
        · exact hh h1
      · exact fun hh h1 => hh (Or.inr h1)

/-- Claim C4: persisting a ledger and loading the result back reproduces the
same key set and the same record contents, the persisted form is key-sorted
(so serialization is deterministic in the key order), and a missing or
unreadable file loads as the empty ledger. -/
theorem c4_round_trip (h : Ledger) (k : String) (hnd : (h.map Prod.fst).Nodup) :
    (k ∈ (load_archive_history (some (save_archive_history h))).map Prod.fst ↔
      k ∈ h.map Prod.fst) ∧
    dictLookup (load_archive_history (some (save_archive_history h))) k
      = dictLookup h k ∧
    List.Sorted (fun a b : String × Record => a.1 ≤ b.1) (save_archive_history h) ∧
    load_archive_history none = [] := by
  have hperm : List.Perm (save_archive_history h) h := List.perm_insertionSort _ h
  have hkeys : List.Perm ((save_archive_history h).map Prod.fst) (h.map Prod.fst) :=
    hperm.map _
  have hnds : ((save_archive_history h).map Prod.fst).Nodup := hkeys.nodup_iff.mpr hnd
  refine ⟨hkeys.mem_iff, ?_, List.sorted_insertionSort _ h, rfl⟩
  show dictLookup (save_archive_history h) k = dictLookup h k
  cases hl : dictLookup h k with
  | none =>
    rw [dictLookup_eq_none_iff] at hl ⊢
    exact fun hm => hl (hkeys.mem_iff.mp hm)
  | some v =>
    exact dictLookup_eq_some_of_mem_nodup _ k v hnds
      (hperm.mem_iff.mpr (dictLookup_some_mem h k v hl))

theorem c4_witness :
    ("a" ∈ (load_archive_history (some (save_archive_history hUnsorted))).map Prod.fst ↔
      "a" ∈ hUnsorted.map Prod.fst) ∧
    dictLookup (load_archive_history (some (save_archive_history hUnsorted))) "a"
      = dictLookup hUnsorted "a" ∧
    List.Sorted (fun a b : String × Record => a.1 ≤ b.1) (save_archive_history hUnsorted) ∧
    load_archive_history none = [] := by
  exact c4_round_trip hUnsorted "a" (by decide)

end JDAE
